import Mathlib

/-!
Verification of `mne/channels/interpolation.py` (spherical-spline interpolation
of bad sensor channels).

Positions are 3-vectors over ℝ; an array of `n` positions is a function
`Fin n → Vec3`; matrices are Mathlib `Matrix (Fin p) (Fin q) ℝ`.  Floating
point arithmetic is modelled by exact real arithmetic.  External collaborators
(scipy's `pinv`, the MEG forward mapper) are parameters; repository helpers
that are not part of this file's source (`_normalize_vectors`, `pick_types`,
`pick_channels`) are modelled from the spec, as marked in their doc comments.
-/

/-- A 3D sensor position (one row of an `(n, 3)` numpy array). -/
def Vec3 : Type := Fin 3 → ℝ

/-- Euclidean magnitude of a position: `np.sqrt(np.sum(rr * rr))` for one row. -/
noncomputable def vecNorm (v : Vec3) : ℝ :=
  Real.sqrt (∑ i, v i * v i)

/-- Modelled from the spec: `_normalize_vectors` (from `mne.surface`, outside
this file) divides each position by its own norm ("normalize both sets to unit
sphere magnitude (divide each by its own norm)").  This is the per-row
operation. -/
noncomputable def normalizeVec (v : Vec3) : Vec3 :=
  fun i => v i / vecNorm v

/-- `_normalize_vectors` applied to a whole `(n, 3)` array of positions. -/
noncomputable def normalize_vectors {n : ℕ} (P : Fin n → Vec3) : Fin n → Vec3 :=
  fun k => normalizeVec (P k)

/-- Row-by-row dot product, the entries of `A.dot(B.T)` for `(n, 3)` arrays. -/
noncomputable def dot3 (v w : Vec3) : ℝ :=
  ∑ i, v i * w i

/-- Legendre polynomials `P n`, by the Bonnet recurrence
`(n+2) P_{n+2}(x) = (2n+3) x P_{n+1}(x) - (n+1) P_n(x)`. -/
noncomputable def legendreP : ℕ → ℝ → ℝ
  | 0, _ => 1
  | 1, x => x
  | (n + 2), x =>
      ((2 * (n : ℝ) + 3) * x * legendreP (n + 1) x - ((n : ℝ) + 1) * legendreP n x)
        / ((n : ℝ) + 2)

/-- `numpy.polynomial.legendre.legval`, modelled by its documented contract
(it is an external library routine): evaluate the Legendre series
`c_0 P_0(x) + c_1 P_1(x) + ... + c_{N-1} P_{N-1}(x)`. -/
noncomputable def legval (c : List ℝ) (x : ℝ) : ℝ :=
  ∑ i ∈ Finset.range c.length, c.getD i 0 * legendreP i x

/-- The coefficient list built by `_calc_g`:
`[(2*n+1) / (n**stiffness * (n+1)**stiffness * 4 * np.pi) for n in range(1, num_lterms+1)]`. -/
noncomputable def g_factors (stiffness num_lterms : ℕ) : List ℝ :=
  (List.range num_lterms).map fun (k : ℕ) =>
    ((2 * ((k : ℝ) + 1) + 1)) /
      (((k : ℝ) + 1) ^ stiffness * (((k : ℝ) + 1) + 1) ^ stiffness * 4 * Real.pi)

/-- The coefficient list built by `_calc_h`, with exponent `stiffness - 1`. -/
noncomputable def h_factors (stiffness num_lterms : ℕ) : List ℝ :=
  (List.range num_lterms).map fun (k : ℕ) =>
    ((2 * ((k : ℝ) + 1) + 1)) /
      (((k : ℝ) + 1) ^ (stiffness - 1) * (((k : ℝ) + 1) + 1) ^ (stiffness - 1) * 4 * Real.pi)

/-- `_calc_g`: evaluate the spherical-spline potential kernel elementwise on a
cosine-angle matrix, via `legval(cosang, [0] + factors)`. -/
noncomputable def calc_g {p q : ℕ} (cosang : Matrix (Fin p) (Fin q) ℝ) (stiffness num_lterms : ℕ) :
    Matrix (Fin p) (Fin q) ℝ :=
  cosang.map (legval ([0] ++ g_factors stiffness num_lterms))

/-- `_calc_h`: the derivative kernel, `legval(cosang, [0] + factors)` with the
`h` coefficient list. -/
noncomputable def calc_h {p q : ℕ} (cosang : Matrix (Fin p) (Fin q) ℝ) (stiffness num_lterms : ℕ) :
    Matrix (Fin p) (Fin q) ℝ :=
  cosang.map (legval ([0] ++ h_factors stiffness num_lterms))

/-- `G_from.flat[::len(G_from) + 1] += alpha`: `G_from` is a square
`n × n` array, so stepping its flat view by `n + 1` touches exactly the
diagonal entries `(i, i)`. -/
noncomputable def addDiag {n : ℕ} (M : Matrix (Fin n) (Fin n) ℝ) (a : ℝ) :
    Matrix (Fin n) (Fin n) ℝ :=
  Matrix.of fun i j => if i = j then M i j + a else M i j

/-- The part of `_make_interpolation_matrix` after normalization: cosine-angle
matrices, kernels (including the unused `H_to_from`), optional ridge
regularization, pseudo-inverse (supplied by the external collaborator `pinv`),
and the final product.  Source lines 94-105. -/
noncomputable def spline_from_normalized {nF nT : ℕ}
    (pinv : Matrix (Fin nF) (Fin nF) ℝ → Matrix (Fin nF) (Fin nF) ℝ)
    (posFrom : Fin nF → Vec3) (posTo : Fin nT → Vec3) (alpha : Option ℝ) :
    Matrix (Fin nT) (Fin nF) ℝ :=
  let cosang_from : Matrix (Fin nF) (Fin nF) ℝ :=
    Matrix.of fun i j => dot3 (posFrom i) (posFrom j)
  let cosang_to_from : Matrix (Fin nT) (Fin nF) ℝ :=
    Matrix.of fun i j => dot3 (posTo i) (posFrom j)
  let G_from := calc_g cosang_from 4 50
  let G_to_from := calc_g cosang_to_from 4 50
  -- `H_to_from` is computed by the source but never consumed on this path.
  let _H_to_from := calc_h cosang_to_from 4 50
  let G_reg :=
    match alpha with
    | some a => addDiag G_from a
    | none => G_from
  let C_inv := pinv G_reg
  G_to_from * C_inv

/-- `_make_interpolation_matrix(pos_from, pos_to, alpha)`: copy the inputs,
normalize the copies to the unit sphere, then build
`G_to_from · pinv(G_from [+ alpha·I])`.  The caller passes `alpha = some a`
for a non-null alpha (source default `1e-5`) and `none` for `None`. -/
noncomputable def make_interpolation_matrix {nF nT : ℕ}
    (pinv : Matrix (Fin nF) (Fin nF) ℝ → Matrix (Fin nF) (Fin nF) ℝ)
    (posFrom : Fin nF → Vec3) (posTo : Fin nT → Vec3) (alpha : Option ℝ) :
    Matrix (Fin nT) (Fin nF) ℝ :=
  spline_from_normalized pinv (normalize_vectors posFrom) (normalize_vectors posTo) alpha

/-- A signal container, dispatched on by `_do_interp_dots`: `_BaseRaw`
(channels × samples), `_BaseEpochs` (trials × channels × samples), `Evoked`
(channels × samples), or any other input type (carrying the name Python's
`type(inst)` would print). -/
inductive Inst (nT nCh nS : ℕ) where
  | raw (data : Matrix (Fin nCh) (Fin nS) ℝ)
  | epochs (data : Fin nT → Matrix (Fin nCh) (Fin nS) ℝ)
  | evoked (data : Matrix (Fin nCh) (Fin nS) ℝ)
  | unsupported (typeName : String)

/-- Numpy fancy-indexing read `data[idx]`: the rows of `data` listed by
`idx`, in order. -/
def selectRows {nCh nS : ℕ} (d : Matrix (Fin nCh) (Fin nS) ℝ) (idx : List (Fin nCh)) :
    Matrix (Fin idx.length) (Fin nS) ℝ :=
  Matrix.of fun k s => d (idx.get k) s

/-- Numpy fancy-indexing write `data[idx] = rows`: channel `c` takes row
`k` of `rows` when `c` is the `k`-th entry of `idx`, and keeps its old
samples otherwise. -/
def writeRows {nCh nS : ℕ} (d : Matrix (Fin nCh) (Fin nS) ℝ) (idx : List (Fin nCh))
    (rows : Matrix (Fin idx.length) (Fin nS) ℝ) : Matrix (Fin nCh) (Fin nS) ℝ :=
  Matrix.of fun c s =>
    if h : idx.indexOf c < idx.length then rows ⟨idx.indexOf c, h⟩ s else d c s

/-- `_do_interp_dots(inst, interpolation, goods_idx, bads_idx)`: write
`interpolation · data[goods]` into the bad rows, per trial for epochs
(`np.einsum('ij,xjy->xiy', ...)`), and raise `ValueError` on any other input
type. -/
def do_interp_dots {nT nCh nS : ℕ} (inst : Inst nT nCh nS)
    (goods_idx bads_idx : List (Fin nCh))
    (interpolation : Matrix (Fin bads_idx.length) (Fin goods_idx.length) ℝ) :
    Except String (Inst nT nCh nS) :=
  match inst with
  | .raw d => .ok (.raw (writeRows d bads_idx (interpolation * selectRows d goods_idx)))
  | .epochs d =>
      .ok (.epochs fun t => writeRows (d t) bads_idx (interpolation * selectRows (d t) goods_idx))
  | .evoked d => .ok (.evoked (writeRows d bads_idx (interpolation * selectRows d goods_idx)))
  | .unsupported typeName =>
      .error ("Inputs of type " ++ typeName ++ " are not supported")

/-- Channel modality, the part of the measurement-info record that
`pick_types(meg=..., eeg=...)` dispatches on. -/
inductive Modality where
  | eeg
  | meg
  | other
deriving DecidableEq, BEq, Repr

/-- Placeholder channel entry for out-of-range `getD` reads. -/
def noChan : String × Modality := ("", Modality.other)

/-- Modelled from the spec: `pick_types` (from `mne.io.pick`, outside this
file) returns the indices, into the full channel list, of the channels of the
requested modality whose names are not in `exclude` ("ordered channel names, a
per-channel bad flag/list"; the orchestrators call it with `exclude=[]` or
`exclude='bads'`). -/
def pick_types_idx (chs : List (String × Modality)) (want : Modality)
    (exclude : List String) : List ℕ :=
  (List.range chs.length).filter fun i =>
    ((chs.getD i noChan).2 == want) && !(exclude.contains (chs.getD i noChan).1)

/-- Modelled from the spec: `pick_channels` (from `mne.io.pick`, outside this
file) returns the indices, into the `ch_names` list it is given, of the names
that are in `incl`. -/
def pick_channels_idx (ch_names : List String) (incl : List String) : List ℕ :=
  (List.range ch_names.length).filter fun i => incl.contains (ch_names.getD i "")

/-- The boolean mask built by `_interpolate_bads_eeg` lines 137-141:
`bads_idx = np.zeros(len(ch_names), bool)` followed by
`bads_idx[picks] = [ch_names[ch] in bads for ch in picks]`.  Entry `i` is true
iff channel `i` is a picked EEG channel whose name is in `bads`. -/
def eeg_bads_mask (chs : List (String × Modality)) (bads : List String) : List Bool :=
  (List.range chs.length).map fun i =>
    (pick_types_idx chs Modality.eeg []).contains i
      && bads.contains (chs.getD i noChan).1

/-- The early-return guard of `_interpolate_bads_eeg` line 143:
`len(picks) == 0 or len(bads_idx) == 0`.  Note `len(bads_idx)` is the length
of the boolean mask, i.e. the total channel count. -/
def eeg_early_return (chs : List (String × Modality)) (bads : List String) : Bool :=
  ((pick_types_idx chs Modality.eeg []).length == 0)
    || ((eeg_bads_mask chs bads).length == 0)

/-- The index arrays computed by `_interpolate_bads_meg` lines 189-198:
`picks_meg` (flat indices of all MEG channels), from which `ch_names` (the
MEG-only name sublist), `picks_good` (flat indices of non-bad MEG channels),
and `picks_bad = pick_channels(ch_names, bads)` — indices into the MEG-only
sublist.  Returns `(picks_good, picks_bad)` as passed to `_do_interp_dots`. -/
def meg_interp_indices (chs : List (String × Modality)) (bads : List String) :
    List ℕ × List ℕ :=
  let picks_meg := pick_types_idx chs Modality.meg []
  let ch_names := picks_meg.map fun p => (chs.getD p noChan).1
  let picks_good := pick_types_idx chs Modality.meg bads
  let picks_bad := if bads.length == 0 then [] else pick_channels_idx ch_names bads
  (picks_good, picks_bad)

/-- The early-return guard of `_interpolate_bads_meg` line 201:
`len(picks_meg) == 0 or len(picks_bad) == 0`. -/
def meg_early_return (chs : List (String × Modality)) (bads : List String) : Bool :=
  ((pick_types_idx chs Modality.meg []).length == 0)
    || ((meg_interp_indices chs bads).2.length == 0)

/-- GeometryValidator, `_interpolate_bads_eeg` lines 160-161: the per-sensor
distances `np.sqrt(np.sum((pos_good - center) ** 2, 1))`, with the position
array viewed as a list of rows. -/
noncomputable def fit_distances (posGood : List Vec3) (center : Vec3) : List ℝ :=
  posGood.map fun p => Real.sqrt (∑ i, (p i - center i) ^ 2)

/-- GeometryValidator, line 161: `distance = np.mean(distance / radius)` —
divide each distance by the radius, then take the mean (`np.mean` of an empty
array is modelled by `sum / length` with `length = 0`, i.e. `0 / 0 = 0`). -/
noncomputable def fit_mean (posGood : List Vec3) (radius : ℝ) (center : Vec3) : ℝ :=
  ((fit_distances posGood center).map (· / radius)).sum
    / ((fit_distances posGood center).map (· / radius)).length

/-- GeometryValidator plus the unconditional matrix construction,
`_interpolate_bads_eeg` lines 158-169: the first component is the condition
of line 162 (`np.abs(1. - distance) > 0.1`) under which the poor-fit warning
is logged; the second is the interpolation matrix built by line 169 with the
default `alpha=1e-5`, which is computed whatever the first component is — the
warning branch contains only the `logger.warning` call, so the computation
always proceeds and nothing is raised. -/
noncomputable def eeg_fit_check_and_matrix {nF nT : ℕ}
    (pinv : Matrix (Fin nF) (Fin nF) ℝ → Matrix (Fin nF) (Fin nF) ℝ)
    (posGood : Fin nF → Vec3) (posBad : Fin nT → Vec3)
    (radius : ℝ) (center : Vec3) :
    Prop × Matrix (Fin nT) (Fin nF) ℝ :=
  (|1 - fit_mean (List.ofFn posGood) radius center| > 1 / 10,
   make_interpolation_matrix pinv posGood posBad (some (1e-5)))

/-- A heap of position arrays, for the aliasing behaviour of
`_make_interpolation_matrix`: Python array objects are cells, references are
indices into the heap. -/
abbrev Store : Type := List (List Vec3)

/-- Dereference: the array held by cell `r` (an absent cell reads as `[]`). -/
def Store.read (s : Store) (r : ℕ) : List Vec3 :=
  s.getD r []

/-- `_normalize_vectors(arr)` as an in-place update of cell `r`. -/
noncomputable def normalize_vectors_st (s : Store) (r : ℕ) : Store :=
  s.set r ((Store.read s r).map normalizeVec)

/-- `_make_interpolation_matrix` at the heap level, source lines 87-105:
`pos_from = pos_from.copy()` and `pos_to = pos_to.copy()` allocate fresh
cells holding the same values; `_normalize_vectors` then mutates those fresh
cells in place; the matrix is computed from the normalized copies.  Returns
the heap after the call together with the matrix (packaged with its
dimensions). -/
noncomputable def make_interpolation_matrix_st
    (pinv : (n : ℕ) → Matrix (Fin n) (Fin n) ℝ → Matrix (Fin n) (Fin n) ℝ)
    (s : Store) (rFrom rTo : ℕ) (alpha : Option ℝ) :
    Store × ((p : ℕ) × (q : ℕ) × Matrix (Fin p) (Fin q) ℝ) :=
  let s1 := s ++ [Store.read s rFrom]
  let rF := s.length
  let s2 := s1 ++ [Store.read s1 rTo]
  let rT := s1.length
  let s3 := normalize_vectors_st s2 rF
  let s4 := normalize_vectors_st s3 rT
  let pf := Store.read s4 rF
  let pt := Store.read s4 rT
  (s4, ⟨pt.length, pf.length,
    spline_from_normalized (pinv pf.length) (fun j => pf.get j) (fun i => pt.get i) alpha⟩)

/-- The in-place diagonal bump is the same matrix as adding `alpha · I`. -/
theorem addDiag_eq_add_smul_one {n : ℕ} (M : Matrix (Fin n) (Fin n) ℝ) (a : ℝ) :
    addDiag M a = M + a • (1 : Matrix (Fin n) (Fin n) ℝ) := by
  ext i j
  by_cases h : i = j
  · subst h; simp [addDiag, Matrix.one_apply]
  · simp [addDiag, h, Matrix.one_apply]

/-- A position of non-zero norm normalizes to unit norm. -/
theorem vecNorm_normalizeVec {v : Vec3} (hv : vecNorm v ≠ 0) :
    vecNorm (normalizeVec v) = 1 := by
  have hS : (0 : ℝ) ≤ ∑ i, v i * v i :=
    Finset.sum_nonneg fun i _ => mul_self_nonneg _
  have hsq : vecNorm v * vecNorm v = ∑ i, v i * v i := Real.mul_self_sqrt hS
  have hS0 : (∑ i, v i * v i) ≠ 0 := fun h => hv (by simp [vecNorm, h])
  have h1 : ∑ i, normalizeVec v i * normalizeVec v i = 1 := by
    simp only [normalizeVec, div_mul_div_comm, ← Finset.sum_div, hsq]
    exact div_self hS0
  simp [vecNorm, h1]

/-- C1: for non-empty position sets with no zero-norm entries and non-null
alpha, `_make_interpolation_matrix` normalizes both inputs to unit norm and
returns exactly `G(posTo'·posFrom'ᵀ) · pinv(G(posFrom'·posFrom'ᵀ) + alpha·I)`
with `G` the potential kernel at its defaults `(4, 50)`; the result's shape is
`(len(posTo), len(posFrom))` by its type. -/
theorem make_interpolation_matrix_build_spec {nF nT : ℕ} (hF : 0 < nF) (hT : 0 < nT)
    (pinv : Matrix (Fin nF) (Fin nF) ℝ → Matrix (Fin nF) (Fin nF) ℝ)
    (posFrom : Fin nF → Vec3) (posTo : Fin nT → Vec3)
    (hfrom : ∀ k, vecNorm (posFrom k) ≠ 0) (hto : ∀ k, vecNorm (posTo k) ≠ 0)
    (a : ℝ) :
    (∀ k, vecNorm (normalize_vectors posFrom k) = 1) ∧
    (∀ k, vecNorm (normalize_vectors posTo k) = 1) ∧
    make_interpolation_matrix pinv posFrom posTo (some a) =
      calc_g (Matrix.of fun i j =>
          dot3 (normalize_vectors posTo i) (normalize_vectors posFrom j)) 4 50
        * pinv (calc_g (Matrix.of fun i j =>
            dot3 (normalize_vectors posFrom i) (normalize_vectors posFrom j)) 4 50
            + a • (1 : Matrix (Fin nF) (Fin nF) ℝ)) := by
  refine ⟨fun k => vecNorm_normalizeVec (hfrom k),
          fun k => vecNorm_normalizeVec (hto k), ?_⟩
  simp only [make_interpolation_matrix, spline_from_normalized,
    addDiag_eq_add_smul_one]

/-- Fixed sample position `(1, 0, 0)` for witnesses. -/
noncomputable def exPosF : Fin 1 → Vec3 := fun _ => ![1, 0, 0]

/-- Fixed sample position `(0, 1, 0)` for witnesses. -/
noncomputable def exPosT : Fin 1 → Vec3 := fun _ => ![0, 1, 0]

/-- The witness positions have non-zero norm. -/
theorem exPosF_norm : ∀ k : Fin 1, vecNorm (exPosF k) ≠ 0 := by
  intro k
  simp [exPosF, vecNorm, Fin.sum_univ_three]

/-- The witness positions have non-zero norm. -/
theorem exPosT_norm : ∀ k : Fin 1, vecNorm (exPosT k) ≠ 0 := by
  intro k
  simp [exPosT, vecNorm, Fin.sum_univ_three]

/-- Witness for C1 at one sensor each side, `pinv = id`, `alpha = 1`. -/
theorem make_interpolation_matrix_build_spec_w :
    (0 < 1) ∧ (∀ k : Fin 1, vecNorm (exPosF k) ≠ 0) ∧
    (∀ k : Fin 1, vecNorm (exPosT k) ≠ 0) ∧
    ((∀ k, vecNorm (normalize_vectors exPosF k) = 1) ∧
     (∀ k, vecNorm (normalize_vectors exPosT k) = 1) ∧
     make_interpolation_matrix id exPosF exPosT (some 1) =
       calc_g (Matrix.of fun i j =>
           dot3 (normalize_vectors exPosT i) (normalize_vectors exPosF j)) 4 50
         * id (calc_g (Matrix.of fun i j =>
             dot3 (normalize_vectors exPosF i) (normalize_vectors exPosF j)) 4 50
             + (1 : ℝ) • (1 : Matrix (Fin 1) (Fin 1) ℝ))) :=
  ⟨Nat.one_pos, exPosF_norm, exPosT_norm,
    make_interpolation_matrix_build_spec Nat.one_pos Nat.one_pos id exPosF exPosT
      exPosF_norm exPosT_norm 1⟩

/-- Reindex a sum over `1..L` as a sum over `0..L-1`. -/
theorem sum_Icc_one_eq_sum_range (f : ℕ → ℝ) (L : ℕ) :
    ∑ n ∈ Finset.Icc 1 L, f n = ∑ i ∈ Finset.range L, f (i + 1) := by
  induction L with
  | zero => simp
  | succ L ih =>
      rw [Finset.sum_Icc_succ_top (Nat.succ_le_succ (Nat.zero_le L)), ih,
        Finset.sum_range_succ]

/-- A Legendre series whose degree-0 coefficient is `0` is the sum of its
degree-`1` and higher terms. -/
theorem legval_zero_cons (fac : List ℝ) (x : ℝ) :
    legval ((0 : ℝ) :: fac) x =
      ∑ i ∈ Finset.range fac.length, fac.getD i 0 * legendreP (i + 1) x := by
  unfold legval
  rw [List.length_cons, Finset.sum_range_succ']
  simp

/-- Length of the `_calc_g` coefficient list (without the leading zero). -/
theorem g_factors_length (m L : ℕ) : (g_factors m L).length = L := by
  simp only [g_factors, List.length_map, List.length_range]

/-- Length of the `_calc_h` coefficient list (without the leading zero). -/
theorem h_factors_length (m L : ℕ) : (h_factors m L).length = L := by
  simp only [h_factors, List.length_map, List.length_range]

/-- Entry `i` of the `_calc_g` coefficient list. -/
theorem g_factors_getD (m L i : ℕ) (hi : i < L) :
    (g_factors m L).getD i 0 =
      (2 * ((i : ℝ) + 1) + 1) /
        (((i : ℝ) + 1) ^ m * (((i : ℝ) + 1) + 1) ^ m * 4 * Real.pi) := by
  have h1 : i < (g_factors m L).length := by rw [g_factors_length]; exact hi
  rw [List.getD_eq_getElem _ _ h1]
  simp only [g_factors, List.getElem_map, List.getElem_range]

/-- Entry `i` of the `_calc_h` coefficient list. -/
theorem h_factors_getD (m L i : ℕ) (hi : i < L) :
    (h_factors m L).getD i 0 =
      (2 * ((i : ℝ) + 1) + 1) /
        (((i : ℝ) + 1) ^ (m - 1) * (((i : ℝ) + 1) + 1) ^ (m - 1) * 4 * Real.pi) := by
  have h1 : i < (h_factors m L).length := by rw [h_factors_length]; exact hi
  rw [List.getD_eq_getElem _ _ h1]
  simp only [h_factors, List.getElem_map, List.getElem_range]

/-- C4: each entry of `_calc_g` is the truncated Legendre series
`Σ_{n=1}^{L} (2n+1)/(n^m (n+1)^m 4π) P_n(cosang)`, and each entry of
`_calc_h` is the same series with exponent `m-1`; the degree-0 coefficient is
exactly 0 in both (the series starts at `n = 1`), and both functions are
total. -/
theorem calc_g_calc_h_series {p q : ℕ} (M : Matrix (Fin p) (Fin q) ℝ)
    (m L : ℕ) (i : Fin p) (j : Fin q) :
    calc_g M m L i j =
      ∑ n ∈ Finset.Icc 1 L,
        (2 * (n : ℝ) + 1) / ((n : ℝ) ^ m * ((n : ℝ) + 1) ^ m * (4 * Real.pi))
          * legendreP n (M i j) ∧
    calc_h M m L i j =
      ∑ n ∈ Finset.Icc 1 L,
        (2 * (n : ℝ) + 1) / ((n : ℝ) ^ (m - 1) * ((n : ℝ) + 1) ^ (m - 1) * (4 * Real.pi))
          * legendreP n (M i j) := by
  constructor
  · show legval ([0] ++ g_factors m L) (M i j) = _
    rw [List.singleton_append, legval_zero_cons, g_factors_length,
      sum_Icc_one_eq_sum_range]
    refine Finset.sum_congr rfl fun k hk => ?_
    rw [g_factors_getD m L k (Finset.mem_range.mp hk)]
    push_cast
    ring
  · show legval ([0] ++ h_factors m L) (M i j) = _
    rw [List.singleton_append, legval_zero_cons, h_factors_length,
      sum_Icc_one_eq_sum_range]
    refine Finset.sum_congr rfl fun k hk => ?_
    rw [h_factors_getD m L k (Finset.mem_range.mp hk)]
    push_cast
    ring

/-- A fancy-indexing write leaves rows outside the index list untouched. -/
theorem writeRows_not_mem {nCh nS : ℕ} (d : Matrix (Fin nCh) (Fin nS) ℝ)
    (idx : List (Fin nCh)) (rows : Matrix (Fin idx.length) (Fin nS) ℝ)
    (c : Fin nCh) (hc : c ∉ idx) (s : Fin nS) :
    writeRows d idx rows c s = d c s := by
  have h : ¬ idx.indexOf c < idx.length := fun h => hc (List.indexOf_lt_length.mp h)
  simp [writeRows, h]

/-- A fancy-indexing write over distinct indices puts row `k` of the payload
at the `k`-th listed channel. -/
theorem writeRows_get {nCh nS : ℕ} (d : Matrix (Fin nCh) (Fin nS) ℝ)
    (idx : List (Fin nCh)) (hnd : idx.Nodup)
    (rows : Matrix (Fin idx.length) (Fin nS) ℝ) (k : Fin idx.length) (s : Fin nS) :
    writeRows d idx rows (idx.get k) s = rows k s := by
  have hmem : idx.get k ∈ idx := List.get_mem idx k.1 k.2
  have hlt : idx.indexOf (idx.get k) < idx.length := List.indexOf_lt_length.mpr hmem
  have hk : (⟨idx.indexOf (idx.get k), hlt⟩ : Fin idx.length) = k :=
    List.nodup_iff_injective_get.mp hnd (List.indexOf_get hlt)
  have hw : writeRows d idx rows (idx.get k) s
      = if h : idx.indexOf (idx.get k) < idx.length then
          rows ⟨idx.indexOf (idx.get k), h⟩ s
        else d (idx.get k) s := rfl
  rw [hw, dif_pos hlt, hk]

/-- Reading rows disjoint from the written ones sees the old data. -/
theorem selectRows_writeRows {nCh nS : ℕ} {g b : List (Fin nCh)}
    (hdisj : ∀ x ∈ g, x ∉ b) (d : Matrix (Fin nCh) (Fin nS) ℝ)
    (rows : Matrix (Fin b.length) (Fin nS) ℝ) :
    selectRows (writeRows d b rows) g = selectRows d g := by
  ext k s
  exact writeRows_not_mem _ _ _ _ (hdisj _ (List.get_mem g k.1 k.2)) s

/-- Writing the same payload at the same rows twice equals writing it once. -/
theorem writeRows_writeRows {nCh nS : ℕ} (d : Matrix (Fin nCh) (Fin nS) ℝ)
    (b : List (Fin nCh)) (rows : Matrix (Fin b.length) (Fin nS) ℝ) :
    writeRows (writeRows d b rows) b rows = writeRows d b rows := by
  ext c s
  by_cases h : b.indexOf c < b.length
  · simp [writeRows, h]
  · simp [writeRows, h]

/-- C2: for all three supported container shapes and disjoint good/bad index
lists of matching dimensions, `_do_interp_dots` sets each bad channel's
samples to the matrix times the good channels' samples — per trial for the
segmented shape. -/
theorem do_interp_dots_sets_bad_rows {nT nCh nS : ℕ}
    (goods_idx bads_idx : List (Fin nCh))
    (M : Matrix (Fin bads_idx.length) (Fin goods_idx.length) ℝ)
    (hnd : bads_idx.Nodup) (hdisj : ∀ x ∈ goods_idx, x ∉ bads_idx) :
    (∀ d : Matrix (Fin nCh) (Fin nS) ℝ, ∃ d',
      do_interp_dots (Inst.raw d : Inst nT nCh nS) goods_idx bads_idx M
          = Except.ok (Inst.raw d') ∧
        ∀ (k : Fin bads_idx.length) (s : Fin nS),
          d' (bads_idx.get k) s = ∑ j, M k j * d (goods_idx.get j) s) ∧
    (∀ e : Fin nT → Matrix (Fin nCh) (Fin nS) ℝ, ∃ e',
      do_interp_dots (Inst.epochs e) goods_idx bads_idx M
          = Except.ok (Inst.epochs e') ∧
        ∀ (t : Fin nT) (k : Fin bads_idx.length) (s : Fin nS),
          e' t (bads_idx.get k) s = ∑ j, M k j * e t (goods_idx.get j) s) ∧
    (∀ d : Matrix (Fin nCh) (Fin nS) ℝ, ∃ d',
      do_interp_dots (Inst.evoked d : Inst nT nCh nS) goods_idx bads_idx M
          = Except.ok (Inst.evoked d') ∧
        ∀ (k : Fin bads_idx.length) (s : Fin nS),
          d' (bads_idx.get k) s = ∑ j, M k j * d (goods_idx.get j) s) := by
  refine ⟨fun d => ⟨_, rfl, fun k s => ?_⟩, fun e => ⟨_, rfl, fun t k s => ?_⟩,
    fun d => ⟨_, rfl, fun k s => ?_⟩⟩ <;>
  · rw [writeRows_get _ _ hnd]
    simp [Matrix.mul_apply, selectRows]

/-- Witness goods list for the applier theorems. -/
def wGoods : List (Fin 2) := [0]

/-- Witness bads list for the applier theorems. -/
def wBads : List (Fin 2) := [1]

/-- Witness interpolation matrix. -/
noncomputable def wM : Matrix (Fin 1) (Fin 1) ℝ := Matrix.of fun _ _ => 2

/-- Witness channel data. -/
noncomputable def wData : Matrix (Fin 2) (Fin 1) ℝ :=
  Matrix.of fun c _ => if c = 0 then 3 else 5

/-- Witness for C2 on the continuous shape with 2 channels and 1 sample. -/
theorem do_interp_dots_sets_bad_rows_w :
    wBads.Nodup ∧ (∀ x ∈ wGoods, x ∉ wBads) ∧
    (∃ d', do_interp_dots (Inst.raw wData : Inst 1 2 1) wGoods wBads wM
        = Except.ok (Inst.raw d') ∧
      ∀ (k : Fin wBads.length) (s : Fin 1),
        d' (wBads.get k) s = ∑ j, wM k j * wData (wGoods.get j) s) :=
  ⟨by decide, by decide,
    (do_interp_dots_sets_bad_rows wGoods wBads wM (by decide) (by decide)).1 wData⟩

/-- C3: for all three supported container shapes, `_do_interp_dots` leaves
every channel not listed in `bads_idx` unchanged; the samples and trials axes
are preserved by construction. -/
theorem do_interp_dots_frame {nT nCh nS : ℕ}
    (goods_idx bads_idx : List (Fin nCh))
    (M : Matrix (Fin bads_idx.length) (Fin goods_idx.length) ℝ)
    (c : Fin nCh) (hc : c ∉ bads_idx) :
    (∀ d : Matrix (Fin nCh) (Fin nS) ℝ, ∃ d',
      do_interp_dots (Inst.raw d : Inst nT nCh nS) goods_idx bads_idx M
          = Except.ok (Inst.raw d') ∧
        ∀ s : Fin nS, d' c s = d c s) ∧
    (∀ e : Fin nT → Matrix (Fin nCh) (Fin nS) ℝ, ∃ e',
      do_interp_dots (Inst.epochs e) goods_idx bads_idx M
          = Except.ok (Inst.epochs e') ∧
        ∀ (t : Fin nT) (s : Fin nS), e' t c s = e t c s) ∧
    (∀ d : Matrix (Fin nCh) (Fin nS) ℝ, ∃ d',
      do_interp_dots (Inst.evoked d : Inst nT nCh nS) goods_idx bads_idx M
          = Except.ok (Inst.evoked d') ∧
        ∀ s : Fin nS, d' c s = d c s) :=
  ⟨fun d => ⟨_, rfl, fun s => writeRows_not_mem _ _ _ _ hc s⟩,
   fun e => ⟨_, rfl, fun t s => writeRows_not_mem _ _ _ _ hc s⟩,
   fun d => ⟨_, rfl, fun s => writeRows_not_mem _ _ _ _ hc s⟩⟩

/-- Witness for C3: the good channel 0 is untouched. -/
theorem do_interp_dots_frame_w :
    ((0 : Fin 2) ∉ wBads) ∧
    (∃ d', do_interp_dots (Inst.raw wData : Inst 1 2 1) wGoods wBads wM
        = Except.ok (Inst.raw d') ∧
      ∀ s : Fin 1, d' 0 s = wData 0 s) :=
  ⟨by decide, (do_interp_dots_frame wGoods wBads wM 0 (by decide)).1 wData⟩

/-- C9: applying `_do_interp_dots` twice with the same matrix and the same
disjoint index lists equals applying it once — the second application reads
only good rows, which the first left unchanged. -/
theorem do_interp_dots_idem {nT nCh nS : ℕ}
    (goods_idx bads_idx : List (Fin nCh))
    (M : Matrix (Fin bads_idx.length) (Fin goods_idx.length) ℝ)
    (hdisj : ∀ x ∈ goods_idx, x ∉ bads_idx) (inst : Inst nT nCh nS) :
    (do_interp_dots inst goods_idx bads_idx M).bind
        (fun i => do_interp_dots i goods_idx bads_idx M)
      = do_interp_dots inst goods_idx bads_idx M := by
  cases inst with
  | raw d =>
      simp only [do_interp_dots, Except.bind, selectRows_writeRows hdisj,
        writeRows_writeRows]
  | epochs e =>
      simp only [do_interp_dots, Except.bind, selectRows_writeRows hdisj,
        writeRows_writeRows]
  | evoked d =>
      simp only [do_interp_dots, Except.bind, selectRows_writeRows hdisj,
        writeRows_writeRows]
  | unsupported t => rfl

/-- Witness for C9 on the continuous shape. -/
theorem do_interp_dots_idem_w :
    (∀ x ∈ wGoods, x ∉ wBads) ∧
    (do_interp_dots (Inst.raw wData : Inst 1 2 1) wGoods wBads wM).bind
        (fun i => do_interp_dots i wGoods wBads wM)
      = do_interp_dots (Inst.raw wData : Inst 1 2 1) wGoods wBads wM :=
  ⟨by decide, do_interp_dots_idem wGoods wBads wM (by decide) _⟩

/-- C7: on an input that is none of the three supported container shapes,
`_do_interp_dots` fails with the "unsupported input type" error naming the
received type, and produces no mutated container (the result is never
`ok`). -/
theorem do_interp_dots_unsupported {nT nCh nS : ℕ} (typeName : String)
    (goods_idx bads_idx : List (Fin nCh))
    (M : Matrix (Fin bads_idx.length) (Fin goods_idx.length) ℝ) :
    do_interp_dots (Inst.unsupported typeName : Inst nT nCh nS) goods_idx bads_idx M
        = Except.error ("Inputs of type " ++ typeName ++ " are not supported") ∧
    ∀ r : Inst nT nCh nS,
      do_interp_dots (Inst.unsupported typeName : Inst nT nCh nS) goods_idx bads_idx M
          ≠ Except.ok r :=
  ⟨rfl, fun _ h => Except.noConfusion h⟩

/-- C5 (code evaluation at the failing input): with two EEG channels and an
empty bad list, the container has zero bad channels among two selected ones,
yet the guard `len(picks) == 0 or len(bads_idx) == 0` is false — `bads_idx`
is the full-length boolean mask, so its length is the channel count, not the
number of bads — and `_interpolate_bads_eeg` does not return early as the
claim requires. -/
theorem eeg_early_return_missed :
    eeg_early_return [("EEG 001", Modality.eeg), ("EEG 002", Modality.eeg)] [] = false ∧
    (pick_types_idx [("EEG 001", Modality.eeg), ("EEG 002", Modality.eeg)]
        Modality.eeg []).length = 2 ∧
    (eeg_bads_mask [("EEG 001", Modality.eeg), ("EEG 002", Modality.eeg)] []).count true
      = 0 := by
  decide

/-- C10 (code evaluation at the failing input): with channel list
`[EEG 001, MEG 001, MEG 002]` and `bads = [MEG 002]`, the MEG orchestrator
passes `picks_good = [1]` (a flat index) but `picks_bad = [1]` — an index
into the MEG-only sublist.  The flat row of the bad MEG channel is `2`, so
the applier would overwrite flat row 1, the *good* channel `MEG 001`, and
leave the bad row 2 untouched. -/
theorem meg_bad_rows_misaligned :
    (meg_interp_indices
        [("EEG 001", Modality.eeg), ("MEG 001", Modality.meg), ("MEG 002", Modality.meg)]
        ["MEG 002"]).2 = [1] ∧
    (meg_interp_indices
        [("EEG 001", Modality.eeg), ("MEG 001", Modality.meg), ("MEG 002", Modality.meg)]
        ["MEG 002"]).1 = [1] ∧
    ((List.range 3).filter fun i =>
        (([("EEG 001", Modality.eeg), ("MEG 001", Modality.meg),
           ("MEG 002", Modality.meg)].getD i noChan).2 == Modality.meg)
          && (["MEG 002"].contains
               ([("EEG 001", Modality.eeg), ("MEG 001", Modality.meg),
                 ("MEG 002", Modality.meg)].getD i noChan).1)) = [2] := by
  decide

/-- C6: the poor-fit warning condition of the GeometryValidator holds exactly
when `|1 − meanRatio| > 0.1`, where `meanRatio` is the mean over the good
positions of (distance from the supplied center)/(supplied radius); and the
interpolation matrix is built regardless of the warning — the validator never
raises and the computation always proceeds. -/
theorem eeg_fit_check_spec {nF nT : ℕ}
    (pinv : Matrix (Fin nF) (Fin nF) ℝ → Matrix (Fin nF) (Fin nF) ℝ)
    (posGood : Fin nF → Vec3) (posBad : Fin nT → Vec3)
    (radius : ℝ) (center : Vec3) :
    ((eeg_fit_check_and_matrix pinv posGood posBad radius center).1 ↔
      |1 - (∑ k, Real.sqrt (∑ i, (posGood k i - center i) ^ 2) / radius) / (nF : ℝ)|
        > 1 / 10) ∧
    (eeg_fit_check_and_matrix pinv posGood posBad radius center).2
      = make_interpolation_matrix pinv posGood posBad (some (1e-5)) := by
  constructor
  · have hm : fit_mean (List.ofFn posGood) radius center
        = (∑ k, Real.sqrt (∑ i, (posGood k i - center i) ^ 2) / radius) / (nF : ℝ) := by
      unfold fit_mean fit_distances
      rw [List.map_ofFn, List.map_ofFn, List.sum_ofFn, List.length_ofFn]
      simp [Function.comp]
    show (|1 - fit_mean (List.ofFn posGood) radius center| > 1 / 10) ↔ _
    rw [hm]
  · rfl

/-- Reading a cell other than the one written is unaffected. -/
theorem store_read_set_ne (s : Store) (i : ℕ) (v : List Vec3) (r : ℕ) (h : i ≠ r) :
    Store.read (s.set i v) r = Store.read s r := by
  unfold Store.read
  rw [List.getD_eq_getElem?_getD, List.getD_eq_getElem?_getD, List.getElem?_set_ne h]

/-- Reading below the length of the left part ignores an appended suffix. -/
theorem store_read_append_lt (s t : Store) (r : ℕ) (h : r < s.length) :
    Store.read (s ++ t) r = Store.read s r := by
  unfold Store.read
  rw [List.getD_eq_getElem?_getD, List.getD_eq_getElem?_getD, List.getElem?_append,
    if_pos h]

/-- C8: `_make_interpolation_matrix` copies `pos_from` and `pos_to` before
normalizing, so after the call every cell of the caller's heap reads exactly
as before: the in-place normalization touches only the two fresh copies and
is never observable to the caller. -/
theorem make_interpolation_matrix_st_frame
    (pinv : (n : ℕ) → Matrix (Fin n) (Fin n) ℝ → Matrix (Fin n) (Fin n) ℝ)
    (s : Store) (rFrom rTo : ℕ) (alpha : Option ℝ)
    (hF : rFrom < s.length) (hT : rTo < s.length) :
    Store.read (make_interpolation_matrix_st pinv s rFrom rTo alpha).1 rFrom
        = Store.read s rFrom ∧
    Store.read (make_interpolation_matrix_st pinv s rFrom rTo alpha).1 rTo
        = Store.read s rTo := by
  have key : ∀ r, r < s.length →
      Store.read (make_interpolation_matrix_st pinv s rFrom rTo alpha).1 r
        = Store.read s r := by
    intro r hr
    have h1 : (s ++ [Store.read s rFrom]).length ≠ r := by
      simp only [List.length_append, List.length_singleton]
      omega
    have h2 : s.length ≠ r := by omega
    have h3 : r < (s ++ [Store.read s rFrom]).length := by
      simp only [List.length_append, List.length_singleton]
      omega
    simp only [make_interpolation_matrix_st, normalize_vectors_st]
    rw [store_read_set_ne _ _ _ _ h1, store_read_set_ne _ _ _ _ h2,
      store_read_append_lt _ _ _ h3, store_read_append_lt _ _ _ hr]
  exact ⟨key rFrom hF, key rTo hT⟩

/-- Witness store: one cell holding one position. -/
noncomputable def wStore : Store := [[![1, 0, 0]]]

/-- Witness for C8 with both references pointing at cell 0. -/
theorem make_interpolation_matrix_st_frame_w :
    (0 < wStore.length) ∧
    Store.read (make_interpolation_matrix_st (fun _ M => M) wStore 0 0 none).1 0
      = Store.read wStore 0 :=
  ⟨Nat.one_pos,
    (make_interpolation_matrix_st_frame (fun _ M => M) wStore 0 0 none
      Nat.one_pos Nat.one_pos).1⟩
